import Mathlib

/-!
Verification of the PopCounter event detection and spectral matching engine
(src/main.js): the similarity scorer, the best-match search, the
accept/reject decision with its counter and cooldown side effects, the
debounce state machine of the per-frame callback, and the reference-feature
caching discipline.

JavaScript numbers are modelled as `Option ℝ`, with `none` standing for NaN.
Reading a JS array out of range yields `undefined`, and arithmetic on
`undefined` yields NaN, so the indexed read is modelled by `List.get?` and
the arithmetic operations send `none` to `none`.  Exact real arithmetic
stands in for IEEE doubles, as usual for a shallow embedding; the floating
summation order of the source loops is therefore immaterial.
-/

namespace PopCounter

noncomputable section

open Classical

/-- JS addition; NaN propagates. -/
def jsAdd : Option ℝ → Option ℝ → Option ℝ
  | some a, some b => some (a + b)
  | _, _ => none

/-- JS multiplication; NaN propagates (`undefined * x` is also NaN). -/
def jsMul : Option ℝ → Option ℝ → Option ℝ
  | some a, some b => some (a * b)
  | _, _ => none

/-- JS `Math.sqrt`: NaN on NaN and on negative input. -/
def jsSqrt : Option ℝ → Option ℝ
  | some a => if a < 0 then none else some (Real.sqrt a)
  | none => none

/-- JS division.  `0 / 0` is NaN.  A zero divisor with a nonzero finite
dividend gives Infinity in JS; in `cosineSimilarity`, the only caller, a zero
divisor is a zero product of square roots of sums of squares, which forces
the accumulated dot product to be `0` or NaN, so the Infinity case is
unreachable there and division by zero is modelled as NaN. -/
def jsDiv : Option ℝ → Option ℝ → Option ℝ
  | some a, some b => if b = 0 then none else some (a / b)
  | _, _ => none

/-- JS strict `>` comparison: false whenever either side is NaN. -/
def jsGt : Option ℝ → Option ℝ → Bool
  | some a, some b => decide (b < a)
  | _, _ => false

/-- Indexed read `v[i]` of a JS array of numbers; `none` for `undefined`. -/
def jsIdx (l : List ℝ) (i : ℕ) : Option ℝ :=
  l.get? i

/-- The constant `COOLDOWN_FRAMES` (src/main.js:8). -/
def COOLDOWN_FRAMES : ℕ := 10

/-- The amplitude gate constant `THRESHOLD` (src/main.js:9). -/
def THRESHOLD : ℝ := 0.23

/-- The acceptance constant `SIMILARITY_THRESHOLD` (src/main.js:11). -/
def SIMILARITY_THRESHOLD : ℝ := 0.95

/-- One iteration of the `for` loop of `cosineSimilarity` (src/main.js:62-66):
the accumulators `(dotProduct, magA, magB)` are updated from index `i`. -/
def simAccum (vecA vecB : List ℝ) (acc : Option ℝ × Option ℝ × Option ℝ) (i : ℕ) :
    Option ℝ × Option ℝ × Option ℝ :=
  (jsAdd acc.1 (jsMul (jsIdx vecA i) (jsIdx vecB i)),
   jsAdd acc.2.1 (jsMul (jsIdx vecA i) (jsIdx vecA i)),
   jsAdd acc.2.2 (jsMul (jsIdx vecB i) (jsIdx vecB i)))

/-- Model of `cosineSimilarity` (src/main.js:58-70): the loop runs `i` from
`0` below `vecA.length`, then the result is
`dotProduct / (Math.sqrt magA * Math.sqrt magB)`. -/
def cosineSimilarity (vecA vecB : List ℝ) : Option ℝ :=
  let s := (List.range vecA.length).foldl (simAccum vecA vecB) (some 0, some 0, some 0)
  jsDiv s.1 (jsMul (jsSqrt s.2.1) (jsSqrt s.2.2))

/-- The exact value accumulated in `dotProduct` after `n` loop iterations. -/
def dotSum (vecA vecB : List ℝ) (n : ℕ) : ℝ :=
  ∑ i in Finset.range n, vecA.getD i 0 * vecB.getD i 0

/-- The exact value accumulated in `magA` (before the square root) after `n`
loop iterations; `sqSum v v.length = 0` says the vector has zero magnitude. -/
def sqSum (vec : List ℝ) (n : ℕ) : ℝ :=
  ∑ i in Finset.range n, vec.getD i 0 * vec.getD i 0

/-- A stored reference pop.  `blobFeatures` is the feature vector that
decoding the audio payload of the sample and running the spectral extractor
would produce; `decodeAudioData` and the FFT library are external to the
repository, and per spec §4.1 extraction is a deterministic pure function of
the payload, so the composite is modelled as a fixed attribute.  `features`
is the lazily filled cache field of src/main.js:83-87 (`null` is `none`). -/
structure RefSample where
  blobFeatures : List ℝ
  features : Option (List ℝ)

/-- The `bestMatch` record of `analyzeAndCompare` (src/main.js:79). -/
structure BestMatch where
  score : Option ℝ
  index : ℤ

/-- The user-visible status messages written through `setStatus`. -/
inductive Status where
  | ready
  | listening
  | stopped
  | micDenied
  | noRefs
  | matched (index : ℤ) (score : Option ℝ)
  | noMatch (index : ℤ) (score : Option ℝ)

/-- The module-level mutable state of src/main.js: `counter`, `cooldown`,
`running`, `refSamples` and the status line. -/
structure PCState where
  counter : ℕ
  cooldown : ℕ
  running : Bool
  refSamples : List RefSample
  status : Status

/-- Default reference used only as the fallback of `List.getD`. -/
def dRef : RefSample := ⟨[], none⟩

/-- Lazy feature extraction for one reference (src/main.js:83-87):
`if (!ref.features) ref.features = getFeatures(decode(ref.blob))`. -/
def ensureFeatures (ref : RefSample) : RefSample :=
  match ref.features with
  | none => { ref with features := some ref.blobFeatures }
  | some _ => ref

/-- The score the loop body computes for one reference (src/main.js:89),
read from the (by then filled) cache field. -/
def refScore (popFeatures : List ℝ) (ref : RefSample) : Option ℝ :=
  cosineSimilarity popFeatures ((ensureFeatures ref).features.getD [])

/-- One iteration of the reference loop of `analyzeAndCompare`
(src/main.js:81-93): fill the feature cache lazily, score the reference, and
replace `bestMatch` only on a strictly greater score
(`if (score > bestMatch.score)`).  The first component of the accumulator
collects the already-processed references, whose length is the index `i`. -/
def matchStep (popFeatures : List ℝ) (acc : List RefSample × BestMatch) (ref : RefSample) :
    List RefSample × BestMatch :=
  (acc.1 ++ [ensureFeatures ref],
   if jsGt (refScore popFeatures ref) acc.2.score then
     ⟨refScore popFeatures ref, (acc.1.length : ℤ)⟩
   else acc.2)

/-- The whole reference loop, started from `bestMatch = {score: -1, index: -1}`
(src/main.js:79): returns the updated reference list and the best match. -/
def matchLoop (popFeatures : List ℝ) (refs : List RefSample) : List RefSample × BestMatch :=
  refs.foldl (matchStep popFeatures) ([], ⟨some (-1), -1⟩)

/-- The `bestMatch` component of the reference loop, folded over the list of
scores with a running index; used to analyse `matchLoop`. -/
def bestFoldAux : ℕ → BestMatch → List (Option ℝ) → BestMatch
  | _, b, [] => b
  | i, b, sc :: rest =>
      bestFoldAux (i + 1) (if jsGt sc b.score then ⟨sc, (i : ℤ)⟩ else b) rest

/-- Model of `analyzeAndCompare` (src/main.js:72-103).  The spectral
extractor `getFeatures` wraps the external FFT library and is passed in as
the parameter `gf` (spec §4.1: a deterministic pure function of the frame).
On a best score strictly above `SIMILARITY_THRESHOLD` the counter is
incremented and the cooldown armed; otherwise only the status changes. -/
def analyzeAndCompare (gf : List ℝ → List ℝ) (popBuffer : List ℝ) (s : PCState) : PCState :=
  if s.refSamples.length = 0 then
    { s with status := Status.noRefs }
  else
    let r := matchLoop (gf popBuffer) s.refSamples
    if jsGt r.2.score (some SIMILARITY_THRESHOLD) then
      { s with refSamples := r.1,
               counter := s.counter + 1,
               status := Status.matched r.2.index r.2.score,
               cooldown := COOLDOWN_FRAMES }
    else
      { s with refSamples := r.1,
               status := Status.noMatch r.2.index r.2.score }

/-- Peak absolute amplitude of a frame (src/main.js:122-125). -/
def peakAmp (input : List ℝ) : ℝ :=
  input.foldl (fun m x => max m |x|) 0

/-- Model of `processor.onaudioprocess` (src/main.js:120-133).  The source
computes the peak before the cooldown test but uses it only after that test,
so evaluating it in the second branch is observably identical. -/
def onAudioProcess (gf : List ℝ → List ℝ) (input : List ℝ) (s : PCState) : PCState :=
  if 0 < s.cooldown then
    { s with cooldown := s.cooldown - 1 }
  else if THRESHOLD < peakAmp input then
    analyzeAndCompare gf input s
  else
    s

/-- A run of consecutive frames through the per-frame callback. -/
def processFrames (gf : List ℝ → List ℝ) (frames : List (List ℝ)) (s : PCState) : PCState :=
  frames.foldl (fun st f => onAudioProcess gf f st) s

/-- Model of the success path of `startCounter` (src/main.js:106-118):
microphone acquisition and audio-graph wiring are external; the state writes
are the status line and `running = true`.  Neither `cooldown` nor `counter`
is written anywhere in the function. -/
def startCounter (s : PCState) : PCState :=
  { s with running := true, status := Status.listening }

/-- Model of `stopCounter` (src/main.js:140-146): releases capture resources
(external), sets the status and `running = false`; `cooldown` is not
written. -/
def stopCounter (s : PCState) : PCState :=
  { s with running := false, status := Status.stopped }

/-- Model of `loadReferences` (src/main.js:180-184).  Modelled from the spec:
`getAllReferences` lives in storage.js, which is not under src/; per spec §6
it returns the ordered stored records, each a raw payload without any cached
feature field, and a record is represented here by the feature vector its
payload would decode and extract to.  The rebuilt `refSamples` objects
therefore all carry an empty cache. -/
def loadReferences (db : List (List ℝ)) (s : PCState) : PCState :=
  { s with refSamples := db.map (fun bf => ⟨bf, none⟩) }

end

/-! Basic facts about the JS number operations. -/

theorem jsAdd_some_some (a b : ℝ) : jsAdd (some a) (some b) = some (a + b) := rfl

theorem jsAdd_none_left (y : Option ℝ) : jsAdd none y = none := rfl

theorem jsAdd_none_right (x : Option ℝ) : jsAdd x none = none := by
  cases x <;> rfl

theorem jsMul_some_some (a b : ℝ) : jsMul (some a) (some b) = some (a * b) := rfl

theorem jsMul_none_left (y : Option ℝ) : jsMul none y = none := rfl

theorem jsMul_none_right (x : Option ℝ) : jsMul x none = none := by
  cases x <;> rfl

theorem jsSqrt_some_of_nonneg (a : ℝ) (h : 0 ≤ a) : jsSqrt (some a) = some (Real.sqrt a) := by
  simp [jsSqrt, not_lt.mpr h]

theorem jsDiv_some_some (a b : ℝ) : jsDiv (some a) (some b) = if b = 0 then none else some (a / b) := rfl

theorem jsDiv_none_right (x : Option ℝ) : jsDiv x none = none := by
  cases x <;> rfl

theorem jsDiv_none_left (y : Option ℝ) : jsDiv none y = none := rfl

theorem jsGt_none_left (y : Option ℝ) : jsGt none y = false := rfl

theorem jsGt_none_right (x : Option ℝ) : jsGt x none = false := by
  cases x <;> rfl

theorem jsGt_some_some (a b : ℝ) : jsGt (some a) (some b) = decide (b < a) := rfl

theorem jsGt_eq_true_iff (x : Option ℝ) (b : ℝ) :
    jsGt x (some b) = true ↔ ∃ q, x = some q ∧ b < q := by
  cases x with
  | none => simp [jsGt_none_left]
  | some a => simp [jsGt_some_some]

theorem jsIdx_of_lt (l : List ℝ) (i : ℕ) (h : i < l.length) :
    jsIdx l i = some (l.getD i 0) := by
  rw [jsIdx, List.getD_eq_getElem l 0 h, List.get?_eq_get h]
  rfl

theorem jsIdx_of_ge (l : List ℝ) (i : ℕ) (h : l.length ≤ i) : jsIdx l i = none :=
  List.get?_eq_none.mpr h

/-! Characterisation of the accumulator loop of `cosineSimilarity`. -/

theorem simFold_eq (vecA vecB : List ℝ) :
    ∀ n, n ≤ vecA.length → n ≤ vecB.length →
      (List.range n).foldl (simAccum vecA vecB) (some 0, some 0, some 0) =
        (some (dotSum vecA vecB n), some (sqSum vecA n), some (sqSum vecB n)) := by
  intro n
  induction n with
  | zero => intro _ _; simp [dotSum, sqSum]
  | succ n ih =>
      intro hA hB
      rw [List.range_succ, List.foldl_append, ih (by omega) (by omega)]
      simp only [List.foldl_cons, List.foldl_nil, simAccum,
        jsIdx_of_lt vecA n (by omega), jsIdx_of_lt vecB n (by omega),
        jsAdd_some_some, jsMul_some_some, dotSum, sqSum, Finset.sum_range_succ]

theorem simFold_of_short (vecA vecB : List ℝ) :
    ∀ n, vecB.length < n → n ≤ vecA.length →
      (List.range n).foldl (simAccum vecA vecB) (some 0, some 0, some 0) =
        (none, some (sqSum vecA n), none) := by
  intro n
  induction n with
  | zero => intro h _; exact absurd h (Nat.not_lt_zero _)
  | succ n ih =>
      intro hB hA
      rw [List.range_succ, List.foldl_append]
      by_cases hc : vecB.length < n
      · rw [ih hc (by omega)]
        simp only [List.foldl_cons, List.foldl_nil, simAccum,
          jsIdx_of_lt vecA n (by omega), jsIdx_of_ge vecB n (by omega),
          jsAdd_some_some, jsMul_some_some, jsMul_none_right,
          jsAdd_none_left, jsAdd_none_right, sqSum, Finset.sum_range_succ]
      · have hBn : vecB.length = n := by omega
        rw [simFold_eq vecA vecB n (by omega) (by omega)]
        simp only [List.foldl_cons, List.foldl_nil, simAccum,
          jsIdx_of_lt vecA n (by omega), jsIdx_of_ge vecB n (by omega),
          jsAdd_some_some, jsMul_some_some, jsMul_none_right,
          jsAdd_none_left, jsAdd_none_right, sqSum, Finset.sum_range_succ]

theorem sqSum_nonneg (vec : List ℝ) (n : ℕ) : 0 ≤ sqSum vec n :=
  Finset.sum_nonneg fun i _ => mul_self_nonneg _

theorem sqSum_eq_zero_entries (vec : List ℝ) (n : ℕ) (h : sqSum vec n = 0) :
    ∀ i, i < n → vec.getD i 0 = 0 := by
  intro i hi
  have := (Finset.sum_eq_zero_iff_of_nonneg
    (fun j _ => mul_self_nonneg (vec.getD j 0))).mp h i (Finset.mem_range.mpr hi)
  exact mul_self_eq_zero.mp this

theorem getD_take (l : List ℝ) (n i : ℕ) (h : i < n) :
    (l.take n).getD i 0 = l.getD i 0 := by
  show ((l.take n).get? i).getD 0 = (l.get? i).getD 0
  rw [List.get?_take h]

theorem cosineSimilarity_eval (vecA vecB : List ℝ) (h : vecA.length ≤ vecB.length) :
    cosineSimilarity vecA vecB =
      jsDiv (some (dotSum vecA vecB vecA.length))
        (jsMul (jsSqrt (some (sqSum vecA vecA.length)))
               (jsSqrt (some (sqSum vecB vecA.length)))) := by
  simp only [cosineSimilarity, simFold_eq vecA vecB vecA.length le_rfl h]

/-- On equal-length vectors with a zero-magnitude side, `cosineSimilarity`
performs the division unguarded; its JS value is `0 / 0`, i.e. NaN, not the
numeric sentinel `0` the spec prescribes, and no exception is raised. -/
theorem zero_magnitude_gives_nan (vecA vecB : List ℝ)
    (hlen : vecA.length = vecB.length)
    (h0 : sqSum vecA vecA.length = 0 ∨ sqSum vecB vecB.length = 0) :
    cosineSimilarity vecA vecB = none := by
  simp only [cosineSimilarity, simFold_eq vecA vecB vecA.length le_rfl (le_of_eq hlen)]
  rcases h0 with h0 | h0
  · have hdot : dotSum vecA vecB vecA.length = 0 :=
      Finset.sum_eq_zero fun i hi => by
        rw [sqSum_eq_zero_entries vecA vecA.length h0 i (Finset.mem_range.mp hi), zero_mul]
    rw [hdot, h0, jsSqrt_some_of_nonneg 0 le_rfl, Real.sqrt_zero,
      jsSqrt_some_of_nonneg _ (sqSum_nonneg vecB _), jsMul_some_some, zero_mul,
      jsDiv_some_some, if_pos rfl]
  · have h0' : sqSum vecB vecA.length = 0 := by rw [hlen]; exact h0
    have hdot : dotSum vecA vecB vecA.length = 0 :=
      Finset.sum_eq_zero fun i hi => by
        rw [sqSum_eq_zero_entries vecB vecB.length h0 i
          (by rw [← hlen]; exact Finset.mem_range.mp hi), mul_zero]
    rw [hdot, h0', jsSqrt_some_of_nonneg 0 le_rfl, Real.sqrt_zero,
      jsSqrt_some_of_nonneg _ (sqSum_nonneg vecA _), jsMul_some_some, mul_zero,
      jsDiv_some_some, if_pos rfl]

/-- Witness for `zero_magnitude_gives_nan` at `[0, 0]` against `[3, 4]`. -/
theorem zero_magnitude_gives_nan_witness :
    cosineSimilarity [0, 0] [3, 4] = none :=
  zero_magnitude_gives_nan [0, 0] [3, 4] rfl
    (Or.inl (by norm_num [sqSum, Finset.sum_range_succ, List.getD]))

/-- Claim C2, code bug.  At the failing input `[0]` against `[1]` (equal
length, the first vector of zero magnitude) the scorer performs the
unguarded division `0 / 0` and returns NaN (`none`) instead of the defined
sentinel `0` that the spec prescribes for degenerate silence. -/
theorem zero_magnitude_not_sentinel_cex :
    cosineSimilarity [0] [1] = none ∧ cosineSimilarity [0] [1] ≠ some 0 := by
  have h : cosineSimilarity [0] [1] = none := by
    rw [cosineSimilarity_eval [0] [1] (by norm_num)]
    norm_num [dotSum, sqSum, Finset.sum_range_one, List.getD, jsSqrt, jsMul, jsDiv,
      Real.sqrt_zero, Real.sqrt_one]
  exact ⟨h, by rw [h]; exact fun hc => Option.noConfusion hc⟩

/-- Claim C6, amended.  Mismatched lengths do not fail loudly: when the
first vector is shorter the loop reads only its indices, silently scoring
against the truncation of the second vector; when the first vector is
longer, the out-of-range reads make the result NaN.  No error is raised in
either case. -/
theorem length_mismatch_behavior (vecA vecB : List ℝ) :
    (vecA.length ≤ vecB.length →
      cosineSimilarity vecA vecB = cosineSimilarity vecA (vecB.take vecA.length)) ∧
    (vecB.length < vecA.length → cosineSimilarity vecA vecB = none) := by
  constructor
  · intro h
    have hdot : dotSum vecA vecB vecA.length = dotSum vecA (vecB.take vecA.length) vecA.length :=
      Finset.sum_congr rfl fun i hi => by
        rw [getD_take vecB vecA.length i (Finset.mem_range.mp hi)]
    have hsq : sqSum vecB vecA.length = sqSum (vecB.take vecA.length) vecA.length :=
      Finset.sum_congr rfl fun i hi => by
        rw [getD_take vecB vecA.length i (Finset.mem_range.mp hi)]
    simp only [cosineSimilarity,
      simFold_eq vecA vecB vecA.length le_rfl h,
      simFold_eq vecA (vecB.take vecA.length) vecA.length le_rfl
        (by rw [List.length_take]; exact le_min le_rfl h)]
    rw [hdot, hsq]
  · intro h
    simp only [cosineSimilarity, simFold_of_short vecA vecB vecA.length h le_rfl]
    rfl

/-- Witness for `length_mismatch_behavior`: a shorter first vector scores as
against the truncated second vector, a longer first vector scores NaN. -/
theorem length_mismatch_behavior_witness :
    cosineSimilarity [1, 2] [1, 2, 9] = cosineSimilarity [1, 2] ([1, 2, 9].take 2) ∧
    cosineSimilarity [1, 2, 9] [1] = none :=
  ⟨(length_mismatch_behavior [1, 2] [1, 2, 9]).1 (by norm_num),
   (length_mismatch_behavior [1, 2, 9] [1]).2 (by norm_num)⟩

/-- Counterexample to claim C6 as stated: on the mismatched pair `[1]` and
`[1, 5]` the scorer does not fail; it silently truncates, returning the same
ordinary value `1` as on the truncated pair. -/
theorem length_mismatch_truncates_cex :
    cosineSimilarity [1] [1, 5] = some 1 ∧ cosineSimilarity [1] [1] = some 1 := by
  constructor <;>
  · rw [cosineSimilarity_eval _ _ (by norm_num)]
    norm_num [dotSum, sqSum, Finset.sum_range_one, List.getD, jsSqrt, jsMul, jsDiv,
      Real.sqrt_one]

/-! Invariants of the best-match fold. -/

theorem getD_mem_of_lt {α : Type} (l : List α) (d : α) (j : ℕ) (h : j < l.length) :
    l.getD j d ∈ l := by
  rw [List.getD_eq_getElem l d h]
  exact List.getElem_mem h

theorem bestFoldAux_nil (i : ℕ) (b : BestMatch) : bestFoldAux i b [] = b := rfl

theorem bestFoldAux_cons (i : ℕ) (b : BestMatch) (sc : Option ℝ) (rest : List (Option ℝ)) :
    bestFoldAux i b (sc :: rest) =
      bestFoldAux (i + 1) (if jsGt sc b.score then ⟨sc, (i : ℤ)⟩ else b) rest := rfl

theorem bestFoldAux_of_forall (scores : List (Option ℝ)) :
    ∀ (i : ℕ) (b : BestMatch), (∀ sc ∈ scores, jsGt sc b.score = false) →
      bestFoldAux i b scores = b := by
  induction scores with
  | nil => intro i b _; rfl
  | cons sc rest ih =>
      intro i b h
      rw [bestFoldAux_cons, h sc (List.mem_cons_self sc rest)]
      exact ih (i + 1) b fun s hs => h s (List.mem_cons_of_mem sc hs)

theorem bestFoldAux_of_exists (scores : List (Option ℝ)) :
    ∀ (i : ℕ) (qb : ℝ) (ib : ℤ), (∃ sc ∈ scores, jsGt sc (some qb) = true) →
      ∃ (k : ℕ) (q : ℝ), k < scores.length ∧ scores.getD k none = some q ∧
        bestFoldAux i ⟨some qb, ib⟩ scores = ⟨some q, (i : ℤ) + (k : ℤ)⟩ ∧ qb < q ∧
        (∀ j, j < scores.length → jsGt (scores.getD j none) (some q) = false) ∧
        (∀ j, j < k → ∀ p, scores.getD j none = some p → p < q) := by
  induction scores with
  | nil => intro i qb ib h; simp at h
  | cons sc rest ih =>
      intro i qb ib h
      by_cases hsc : jsGt sc (some qb) = true
      · obtain ⟨p, rfl, hqp⟩ := (jsGt_eq_true_iff sc qb).mp hsc
        rw [bestFoldAux_cons, hsc, if_pos rfl]
        by_cases hrest : ∃ sc2 ∈ rest, jsGt sc2 (some p) = true
        · obtain ⟨k, q, hklen, hkget, heq, hpq, hmax, hfirst⟩ := ih (i + 1) p (i : ℤ) hrest
          refine ⟨k + 1, q, by simpa using hklen, by simpa using hkget, ?_, lt_trans hqp hpq,
            ?_, ?_⟩
          · rw [heq]
            congr 1
            push_cast
            ring
          · intro j hj
            cases j with
            | zero =>
                simp only [List.getD_cons_zero, jsGt_some_some]
                exact decide_eq_false (not_lt.mpr (le_of_lt hpq))
            | succ j =>
                rw [List.getD_cons_succ]
                exact hmax j (by simpa using hj)
          · intro j hj p2 hp2
            cases j with
            | zero =>
                rw [List.getD_cons_zero] at hp2
                exact (Option.some_inj.mp hp2) ▸ hpq
            | succ j =>
                rw [List.getD_cons_succ] at hp2
                exact hfirst j (by omega) p2 hp2
        · push_neg at hrest
          have hfix : bestFoldAux (i + 1) ⟨some p, (i : ℤ)⟩ rest = ⟨some p, (i : ℤ)⟩ :=
            bestFoldAux_of_forall rest (i + 1) ⟨some p, (i : ℤ)⟩ fun s hs =>
              Bool.not_eq_true _ ▸ hrest s hs
          refine ⟨0, p, by simp, List.getD_cons_zero, ?_, hqp, ?_, ?_⟩
          · rw [hfix]
            simp
          · intro j hj
            cases j with
            | zero =>
                simp only [List.getD_cons_zero, jsGt_some_some]
                exact decide_eq_false (lt_irrefl p)
            | succ j =>
                rw [List.getD_cons_succ]
                exact Bool.not_eq_true _ ▸
                  hrest (rest.getD j none) (getD_mem_of_lt rest none j (by simpa using hj))
          · intro j hj
            omega
      · have hscf : jsGt sc (some qb) = false := Bool.not_eq_true _ ▸ hsc
        rw [bestFoldAux_cons, hscf, if_neg (by simp)]
        have hrest : ∃ sc2 ∈ rest, jsGt sc2 (some qb) = true := by
          rcases h with ⟨s, hs, hst⟩
          rcases List.mem_cons.mp hs with hh | hh
          · exact absurd (hh ▸ hst) hsc
          · exact ⟨s, hh, hst⟩
        obtain ⟨k, q, hklen, hkget, heq, hpq, hmax, hfirst⟩ := ih (i + 1) qb ib hrest
        refine ⟨k + 1, q, by simpa using hklen, by simpa using hkget, ?_, hpq, ?_, ?_⟩
        · rw [heq]
          congr 1
          push_cast
          ring
        · intro j hj
          cases j with
          | zero =>
              rw [List.getD_cons_zero]
              cases sc with
              | none => exact jsGt_none_left _
              | some p2 =>
                  rw [jsGt_some_some]
                  have hple : p2 ≤ qb := by
                    by_contra hcon
                    rw [jsGt_some_some] at hscf
                    exact absurd (decide_eq_true (not_le.mp hcon)) (by rw [hscf]; simp)
                  exact decide_eq_false (not_lt.mpr (le_of_lt (lt_of_le_of_lt hple hpq)))
          | succ j =>
              rw [List.getD_cons_succ]
              exact hmax j (by simpa using hj)
        · intro j hj p2 hp2
          cases j with
          | zero =>
              rw [List.getD_cons_zero] at hp2
              subst hp2
              have hple : p2 ≤ qb := by
                by_contra hcon
                rw [jsGt_some_some] at hscf
                exact absurd (decide_eq_true (not_le.mp hcon)) (by rw [hscf]; simp)
              exact lt_of_le_of_lt hple hpq
          | succ j =>
              rw [List.getD_cons_succ] at hp2
              exact hfirst j (by omega) p2 hp2

/-! The reference loop in terms of the processed references and the score fold. -/

theorem matchLoop_go (pop : List ℝ) (refs : List RefSample) :
    ∀ (pre : List RefSample) (b : BestMatch),
      refs.foldl (matchStep pop) (pre, b) =
        (pre ++ refs.map ensureFeatures,
         bestFoldAux pre.length b (refs.map (refScore pop))) := by
  induction refs with
  | nil => intro pre b; simp [bestFoldAux_nil]
  | cons r rest ih =>
      intro pre b
      rw [List.foldl_cons, List.map_cons, List.map_cons, bestFoldAux_cons]
      show rest.foldl (matchStep pop) (matchStep pop (pre, b) r) = _
      rw [matchStep, ih]
      simp [List.append_assoc]

theorem matchLoop_eq (pop : List ℝ) (refs : List RefSample) :
    matchLoop pop refs =
      (refs.map ensureFeatures,
       bestFoldAux 0 ⟨some (-1), -1⟩ (refs.map (refScore pop))) := by
  rw [matchLoop, matchLoop_go pop refs [] ⟨some (-1), -1⟩]
  simp

/-! Facts about the lazy feature cache. -/

theorem ensureFeatures_of_some (r : RefSample) (v : List ℝ) (h : r.features = some v) :
    ensureFeatures r = r := by
  rw [ensureFeatures, h]

theorem ensureFeatures_of_none (r : RefSample) (h : r.features = none) :
    ensureFeatures r = { r with features := some r.blobFeatures } := by
  rw [ensureFeatures, h]

theorem ensureFeatures_idem (r : RefSample) :
    ensureFeatures (ensureFeatures r) = ensureFeatures r := by
  rcases hr : r.features with _ | v
  · rw [ensureFeatures_of_none r hr]
    exact ensureFeatures_of_some _ r.blobFeatures rfl
  · rw [ensureFeatures_of_some r v hr]
    exact ensureFeatures_of_some r v hr

theorem getD_map_of_lt {α β : Type} (f : α → β) (l : List α) (d : β) (d2 : α) (i : ℕ)
    (h : i < l.length) : (l.map f).getD i d = f (l.getD i d2) := by
  rw [List.getD_eq_getElem l d2 h,
    List.getD_eq_getElem (l.map f) d (by simpa using h)]
  simp

/-! The cooldown branch of the per-frame callback. -/

theorem onAudioProcess_cooling (gf : List ℝ → List ℝ) (input : List ℝ) (s : PCState)
    (h : 0 < s.cooldown) :
    onAudioProcess gf input s = { s with cooldown := s.cooldown - 1 } := by
  rw [onAudioProcess, if_pos h]

theorem processFrames_cooldown (gf : List ℝ → List ℝ) :
    ∀ (frames : List (List ℝ)) (s : PCState), frames.length ≤ s.cooldown →
      processFrames gf frames s = { s with cooldown := s.cooldown - frames.length } := by
  intro frames
  induction frames with
  | nil => intro s _; simp [processFrames]
  | cons f rest ih =>
      intro s h
      have hlen : rest.length + 1 ≤ s.cooldown := by simpa using h
      show processFrames gf rest (onAudioProcess gf f s) = _
      rw [onAudioProcess_cooling gf f s (by omega), ih _ (by simp; omega)]
      have : s.cooldown - 1 - rest.length = s.cooldown - (f :: rest).length := by
        simp
        omega
      simp only [this]

/-! Concrete score evaluations shared by the witnesses below. -/

theorem score_one_one : refScore [1] (⟨[1], none⟩ : RefSample) = some 1 := by
  show cosineSimilarity [1] [1] = some 1
  rw [cosineSimilarity_eval [1] [1] (by norm_num)]
  norm_num [dotSum, sqSum, Finset.sum_range_one, List.getD, jsSqrt, jsMul, jsDiv,
    Real.sqrt_one]

theorem score_one_zero : refScore [1] (⟨[0], none⟩ : RefSample) = none := by
  show cosineSimilarity [1] [0] = none
  rw [cosineSimilarity_eval [1] [0] (by norm_num)]
  norm_num [dotSum, sqSum, Finset.sum_range_one, List.getD, jsSqrt, jsMul, jsDiv,
    Real.sqrt_zero, Real.sqrt_one]

theorem score_one_negone : refScore [1] (⟨[-1], some [-1]⟩ : RefSample) = some (-1) := by
  show cosineSimilarity [1] [-1] = some (-1)
  rw [cosineSimilarity_eval [1] [-1] (by norm_num)]
  norm_num [dotSum, sqSum, Finset.sum_range_one, List.getD, jsSqrt, jsMul, jsDiv,
    Real.sqrt_one]

theorem matchLoop_singleton (pop : List ℝ) (r : RefSample) :
    matchLoop pop [r] =
      ([ensureFeatures r],
       if jsGt (refScore pop r) (some (-1)) then ⟨refScore pop r, 0⟩
       else ⟨some (-1), -1⟩) := by
  rw [matchLoop_eq]
  simp [bestFoldAux_cons, bestFoldAux_nil]

/-- Claim C5.  With an empty reference set, `analyzeAndCompare` only reports
the no-references status: counter, cooldown and reference list are untouched. -/
theorem empty_refs_no_action (gf : List ℝ → List ℝ) (popBuffer : List ℝ) (s : PCState)
    (h : s.refSamples = []) :
    analyzeAndCompare gf popBuffer s = { s with status := Status.noRefs } := by
  simp [analyzeAndCompare, h]

/-- Witness for `empty_refs_no_action` on a concrete state. -/
theorem empty_refs_no_action_witness :
    analyzeAndCompare (fun l => l) [1] ⟨2, 3, true, [], Status.ready⟩ =
      ⟨2, 3, true, [], Status.noRefs⟩ :=
  empty_refs_no_action (fun l => l) [1] ⟨2, 3, true, [], Status.ready⟩ rfl

/-- Claim C8.  When the best score is not strictly above the acceptance
threshold (which covers both REJECT and the no-references outcome), the
match changes neither the counter nor the cooldown, and if the cooldown was
`0` the very next above-threshold frame reaches the match engine again. -/
theorem reject_preserves_counters (gf : List ℝ → List ℝ) (popBuffer : List ℝ) (s : PCState)
    (h : jsGt (matchLoop (gf popBuffer) s.refSamples).2.score (some SIMILARITY_THRESHOLD)
      = false) :
    (analyzeAndCompare gf popBuffer s).counter = s.counter ∧
    (analyzeAndCompare gf popBuffer s).cooldown = s.cooldown ∧
    (∀ f : List ℝ, s.cooldown = 0 → THRESHOLD < peakAmp f →
      onAudioProcess gf f (analyzeAndCompare gf popBuffer s) =
        analyzeAndCompare gf f (analyzeAndCompare gf popBuffer s)) := by
  have hs : (analyzeAndCompare gf popBuffer s).counter = s.counter ∧
      (analyzeAndCompare gf popBuffer s).cooldown = s.cooldown := by
    by_cases h0 : s.refSamples.length = 0
    · simp [analyzeAndCompare, h0]
    · simp [analyzeAndCompare, h0, h]
  refine ⟨hs.1, hs.2, ?_⟩
  intro f hcd hpk
  have hc0 : (analyzeAndCompare gf popBuffer s).cooldown = 0 := hs.2.trans hcd
  rw [onAudioProcess, if_neg (by rw [hc0]; exact lt_irrefl 0), if_pos hpk]

/-- Witness for `reject_preserves_counters`: one reference scoring exactly
`-1`, hence below the threshold. -/
theorem reject_preserves_counters_witness :
    (analyzeAndCompare (fun _ => [1]) [1]
      ⟨5, 0, true, [⟨[-1], some [-1]⟩], Status.listening⟩).counter = 5 ∧
    (analyzeAndCompare (fun _ => [1]) [1]
      ⟨5, 0, true, [⟨[-1], some [-1]⟩], Status.listening⟩).cooldown = 0 := by
  have hml : (matchLoop [1] [(⟨[-1], some [-1]⟩ : RefSample)]).2.score = some (-1) := by
    rw [matchLoop_singleton, score_one_negone,
      show jsGt (some (-1)) (some (-1)) = false from
        (jsGt_some_some (-1) (-1)).trans (decide_eq_false (lt_irrefl (-1)))]
    simp
  have h : jsGt (matchLoop [1] [(⟨[-1], some [-1]⟩ : RefSample)]).2.score
      (some SIMILARITY_THRESHOLD) = false := by
    rw [hml, jsGt_some_some]
    exact decide_eq_false (by norm_num [SIMILARITY_THRESHOLD])
  have H := reject_preserves_counters (fun _ => [1]) [1]
    ⟨5, 0, true, [⟨[-1], some [-1]⟩], Status.listening⟩ h
  exact ⟨H.1, H.2.1⟩

/-- Claim C1.  On a triggered frame with a non-empty reference set, the
accept status is reported iff the best score strictly exceeds the acceptance
threshold `0.95`, and in that case the counter grows by exactly one and the
cooldown is set to `10` frames. -/
theorem accept_iff_best_above_threshold (gf : List ℝ → List ℝ) (popBuffer : List ℝ)
    (s : PCState) (h : s.refSamples ≠ []) :
    (SIMILARITY_THRESHOLD = 0.95 ∧ COOLDOWN_FRAMES = 10) ∧
    ((analyzeAndCompare gf popBuffer s).status =
        Status.matched (matchLoop (gf popBuffer) s.refSamples).2.index
          (matchLoop (gf popBuffer) s.refSamples).2.score ↔
      ∃ q, (matchLoop (gf popBuffer) s.refSamples).2.score = some q ∧
        SIMILARITY_THRESHOLD < q) ∧
    ((∃ q, (matchLoop (gf popBuffer) s.refSamples).2.score = some q ∧
        SIMILARITY_THRESHOLD < q) →
      (analyzeAndCompare gf popBuffer s).counter = s.counter + 1 ∧
      (analyzeAndCompare gf popBuffer s).cooldown = COOLDOWN_FRAMES) := by
  have hlen : ¬ s.refSamples.length = 0 := fun hc => h (List.length_eq_zero.mp hc)
  have key : analyzeAndCompare gf popBuffer s =
      if jsGt (matchLoop (gf popBuffer) s.refSamples).2.score (some SIMILARITY_THRESHOLD) then
        { s with refSamples := (matchLoop (gf popBuffer) s.refSamples).1,
                 counter := s.counter + 1,
                 status := Status.matched (matchLoop (gf popBuffer) s.refSamples).2.index
                   (matchLoop (gf popBuffer) s.refSamples).2.score,
                 cooldown := COOLDOWN_FRAMES }
      else
        { s with refSamples := (matchLoop (gf popBuffer) s.refSamples).1,
                 status := Status.noMatch (matchLoop (gf popBuffer) s.refSamples).2.index
                   (matchLoop (gf popBuffer) s.refSamples).2.score } := by
    simp only [analyzeAndCompare, if_neg hlen]
  refine ⟨⟨rfl, rfl⟩, ?_, ?_⟩
  · cases hb : jsGt (matchLoop (gf popBuffer) s.refSamples).2.score
        (some SIMILARITY_THRESHOLD) with
    | true =>
        rw [key, if_pos hb]
        exact ⟨fun _ => (jsGt_eq_true_iff _ _).mp hb, fun _ => rfl⟩
    | false =>
        rw [key, if_neg (by rw [hb]; simp)]
        constructor
        · intro hcon
          exact absurd hcon (by simp)
        · intro hex
          exact absurd ((jsGt_eq_true_iff _ _).mpr hex) (by rw [hb]; simp)
  · intro hex
    have hb := (jsGt_eq_true_iff _ _).mpr hex
    rw [key, if_pos hb]
    exact ⟨rfl, rfl⟩

/-- Witness for `accept_iff_best_above_threshold`: a perfect-match reference
drives the counter from `0` to `1` and arms the cooldown at `10`. -/
theorem accept_iff_best_above_threshold_witness :
    (analyzeAndCompare (fun _ => [1]) [1]
      ⟨0, 0, true, [⟨[1], none⟩], Status.listening⟩).counter = 1 ∧
    (analyzeAndCompare (fun _ => [1]) [1]
      ⟨0, 0, true, [⟨[1], none⟩], Status.listening⟩).cooldown = 10 := by
  have hml : (matchLoop [1] [(⟨[1], none⟩ : RefSample)]).2.score = some 1 := by
    rw [matchLoop_singleton, score_one_one,
      show jsGt (some 1) (some (-1)) = true from
        (jsGt_some_some 1 (-1)).trans (decide_eq_true (by norm_num))]
    simp
  have hex : ∃ q, (matchLoop [1] [(⟨[1], none⟩ : RefSample)]).2.score = some q ∧
      SIMILARITY_THRESHOLD < q :=
    ⟨1, hml, by norm_num [SIMILARITY_THRESHOLD]⟩
  exact (accept_iff_best_above_threshold (fun _ => [1]) [1]
    ⟨0, 0, true, [⟨[1], none⟩], Status.listening⟩ (by simp)).2.2 hex

/-- Claim C10.  The reported best-match index is a valid index into the
reference set only when some score strictly exceeds the initial sentinel
`-1`; when no score compares greater, the sentinel pair `(-1, -1)` survives
the whole loop, and index `-1` designates no reference. -/
theorem best_index_validity (pop : List ℝ) (refs : List RefSample) :
    ((∀ sc ∈ refs.map (refScore pop), jsGt sc (some (-1)) = false) →
      (matchLoop pop refs).2 = ⟨some (-1), -1⟩) ∧
    ((∃ sc ∈ refs.map (refScore pop), jsGt sc (some (-1)) = true) →
      0 ≤ (matchLoop pop refs).2.index ∧
        (matchLoop pop refs).2.index < (refs.length : ℤ)) := by
  constructor
  · intro hall
    rw [matchLoop_eq]
    exact bestFoldAux_of_forall _ 0 ⟨some (-1), -1⟩ hall
  · intro hex
    obtain ⟨k, q, hklen, _, heq, _, _, _⟩ :=
      bestFoldAux_of_exists (refs.map (refScore pop)) 0 (-1) (-1) hex
    rw [matchLoop_eq]
    show 0 ≤ (bestFoldAux 0 ⟨some (-1), -1⟩ (refs.map (refScore pop))).index ∧ _
    rw [heq]
    have hk : k < refs.length := by simpa using hklen
    constructor
    · positivity
    · show (0 : ℤ) + (k : ℤ) < (refs.length : ℤ)
      omega

/-- Witness for `best_index_validity`: a NaN-scoring reference keeps the
sentinel, a beating reference yields a valid index. -/
theorem best_index_validity_witness :
    (matchLoop [1] [(⟨[0], none⟩ : RefSample)]).2 = ⟨some (-1), -1⟩ ∧
    0 ≤ (matchLoop [1] [(⟨[1], none⟩ : RefSample)]).2.index ∧
    (matchLoop [1] [(⟨[1], none⟩ : RefSample)]).2.index < (1 : ℤ) := by
  constructor
  · refine (best_index_validity [1] [⟨[0], none⟩]).1 ?_
    intro sc hsc
    rw [List.map_cons, List.map_nil, score_one_zero] at hsc
    rcases List.mem_singleton.mp hsc with rfl
    exact jsGt_none_left _
  · exact (best_index_validity [1] [⟨[1], none⟩]).2
      ⟨some 1, by rw [List.map_cons, List.map_nil, score_one_one]; exact List.mem_singleton.mpr rfl,
       (jsGt_some_some 1 (-1)).trans (decide_eq_true (by norm_num))⟩

/-- Claim C7, amended.  Whenever at least one score is a number strictly
above the sentinel `-1`, the search returns the maximum of the scores and
the lowest index attaining it: no score beats the returned one, and every
earlier reference has a different (strictly smaller or NaN) score, so ties
keep the first.  Without such a score the sentinel `(-1, -1)` is returned. -/
theorem best_match_first_max (pop : List ℝ) (refs : List RefSample)
    (h : ∃ sc ∈ refs.map (refScore pop), jsGt sc (some (-1)) = true) :
    ∃ k : ℕ, k < refs.length ∧ (matchLoop pop refs).2.index = (k : ℤ) ∧
      (refs.map (refScore pop)).getD k none = (matchLoop pop refs).2.score ∧
      (∀ j, j < refs.length →
        jsGt ((refs.map (refScore pop)).getD j none) (matchLoop pop refs).2.score = false) ∧
      (∀ j, j < k → (refs.map (refScore pop)).getD j none ≠ (matchLoop pop refs).2.score) := by
  obtain ⟨k, q, hklen, hkget, heq, _, hmax, hfirst⟩ :=
    bestFoldAux_of_exists (refs.map (refScore pop)) 0 (-1) (-1) h
  have hsnd : (matchLoop pop refs).2 = ⟨some q, (k : ℤ)⟩ := by
    rw [matchLoop_eq]
    show bestFoldAux 0 ⟨some (-1), -1⟩ (refs.map (refScore pop)) = _
    rw [heq]
    congr 1
    omega
  refine ⟨k, by simpa using hklen, by rw [hsnd], by rw [hsnd]; exact hkget, ?_, ?_⟩
  · intro j hj
    rw [hsnd]
    exact hmax j (by simpa using hj)
  · intro j hj
    rw [hsnd]
    cases hgd : (refs.map (refScore pop)).getD j none with
    | none => simp
    | some p =>
        have hp := hfirst j hj p hgd
        intro hc
        rw [Option.some_inj.mp hc] at hp
        exact lt_irrefl q hp

/-- Witness for `best_match_first_max`: two references tying at score `1`;
the returned index is the first one. -/
theorem best_match_first_max_witness :
    ∃ k : ℕ, k < 2 ∧
      (matchLoop [1] [⟨[1], none⟩, ⟨[1], none⟩]).2.index = (k : ℤ) ∧
      ([refScore [1] ⟨[1], none⟩, refScore [1] ⟨[1], none⟩]).getD k none =
        (matchLoop [1] [⟨[1], none⟩, ⟨[1], none⟩]).2.score ∧
      (∀ j, j < 2 →
        jsGt (([refScore [1] ⟨[1], none⟩, refScore [1] ⟨[1], none⟩]).getD j none)
          (matchLoop [1] [⟨[1], none⟩, ⟨[1], none⟩]).2.score = false) ∧
      (∀ j, j < k →
        ([refScore [1] ⟨[1], none⟩, refScore [1] ⟨[1], none⟩]).getD j none ≠
          (matchLoop [1] [⟨[1], none⟩, ⟨[1], none⟩]).2.score) :=
  best_match_first_max [1] [⟨[1], none⟩, ⟨[1], none⟩]
    ⟨some 1,
     by rw [List.map_cons, List.map_cons, List.map_nil, score_one_one]; exact List.mem_cons_self _ _,
     (jsGt_some_some 1 (-1)).trans (decide_eq_true (by norm_num))⟩

/-- Counterexample to claim C7 as stated: with the single reference scoring
exactly `-1`, the maximum score `-1` is attained first at index `0`, yet the
loop reports the sentinel index `-1`, which designates no reference. -/
theorem best_match_sentinel_cex :
    (matchLoop [1] [(⟨[-1], some [-1]⟩ : RefSample)]).2.index = -1 ∧
    (matchLoop [1] [(⟨[-1], some [-1]⟩ : RefSample)]).2.index ≠ 0 := by
  have hml : (matchLoop [1] [(⟨[-1], some [-1]⟩ : RefSample)]).2 = ⟨some (-1), -1⟩ := by
    rw [matchLoop_singleton, score_one_negone,
      show jsGt (some (-1)) (some (-1)) = false from
        (jsGt_some_some (-1) (-1)).trans (decide_eq_false (lt_irrefl (-1)))]
    simp
  rw [hml]
  exact ⟨rfl, by norm_num⟩

/-- Claim C4.  With the cooldown armed at `10`, each of the next ten frames
only decrements the cooldown — no other state change, whatever the frame
amplitude — and the eleventh frame, if above the amplitude gate, reaches the
match engine again. -/
theorem cooldown_suppression (gf : List ℝ → List ℝ) (frames : List (List ℝ)) (f : List ℝ)
    (s : PCState) (hcd : s.cooldown = COOLDOWN_FRAMES) (hlen : frames.length = COOLDOWN_FRAMES)
    (hpk : THRESHOLD < peakAmp f) :
    (∀ k, k ≤ COOLDOWN_FRAMES →
      processFrames gf (frames.take k) s = { s with cooldown := COOLDOWN_FRAMES - k }) ∧
    processFrames gf frames s = { s with cooldown := 0 } ∧
    onAudioProcess gf f (processFrames gf frames s) =
      analyzeAndCompare gf f (processFrames gf frames s) := by
  have hstep : ∀ k, k ≤ COOLDOWN_FRAMES →
      processFrames gf (frames.take k) s = { s with cooldown := COOLDOWN_FRAMES - k } := by
    intro k hk
    have hlt : (frames.take k).length = k := by
      rw [List.length_take, hlen]
      omega
    rw [processFrames_cooldown gf (frames.take k) s (by rw [hlt, hcd]; exact hk), hlt, hcd]
  have hall : processFrames gf frames s = { s with cooldown := 0 } := by
    rw [processFrames_cooldown gf frames s (le_of_eq (hlen.trans hcd.symm)), hlen, hcd]
    simp
  have hc0 : (processFrames gf frames s).cooldown = 0 := by rw [hall]
  refine ⟨hstep, hall, ?_⟩
  rw [onAudioProcess, if_neg (by rw [hc0]; exact lt_irrefl 0), if_pos hpk]

/-- Witness for `cooldown_suppression`: ten silent frames drain the cooldown
from `10` to `0` with no other change. -/
theorem cooldown_suppression_witness :
    processFrames (fun _ => []) (List.replicate 10 []) ⟨0, 10, true, [], Status.listening⟩ =
      ⟨0, 0, true, [], Status.listening⟩ := by
  have hpk : THRESHOLD < peakAmp [1] := by
    norm_num [peakAmp, THRESHOLD, List.foldl_cons, List.foldl_nil]
  exact (cooldown_suppression (fun _ => []) (List.replicate 10 []) [1]
    ⟨0, 10, true, [], Status.listening⟩ rfl rfl hpk).2.1

/-- Claim C3, amended.  The start command sets `running` and the listening
status but writes neither the cooldown nor the counter; in particular a
cooldown left over from a previous capture session persists across stop and
start instead of being reset to `0`. -/
theorem start_stop_preserve_cooldown (s : PCState) :
    (startCounter s).running = true ∧
    (startCounter s).cooldown = s.cooldown ∧
    (startCounter s).counter = s.counter ∧
    (startCounter s).refSamples = s.refSamples ∧
    (stopCounter s).running = false ∧
    (stopCounter s).cooldown = s.cooldown :=
  ⟨rfl, rfl, rfl, rfl, rfl, rfl⟩

/-- Counterexample to claim C3 as stated: starting from an idle state with a
leftover cooldown of `7`, the start command yields a running detector whose
cooldown is still `7`, not `0`. -/
theorem start_leaves_cooldown_cex :
    (startCounter (stopCounter ⟨3, 7, true, [], Status.listening⟩)).running = true ∧
    (startCounter (stopCounter ⟨3, 7, true, [], Status.listening⟩)).cooldown = 7 ∧
    (startCounter (stopCounter ⟨3, 7, true, [], Status.listening⟩)).cooldown ≠ 0 :=
  ⟨rfl, rfl, by simp [startCounter, stopCounter]⟩

/-- Claim C9.  The reference loop fills each missing feature vector from the
payload of the sample exactly once, never overwrites an already cached
vector, and is idempotent on its own output; reloading from the durable
store rebuilds the reference list with every cache entry empty, so vectors
are recomputed fresh on next use. -/
theorem feature_cache_discipline (pop : List ℝ) (refs : List RefSample)
    (db : List (List ℝ)) (s : PCState) :
    ((matchLoop pop refs).1.length = refs.length) ∧
    (∀ i v, i < refs.length → (refs.getD i dRef).features = some v →
      ((matchLoop pop refs).1.getD i dRef).features = some v) ∧
    (∀ i, i < refs.length → (refs.getD i dRef).features = none →
      ((matchLoop pop refs).1.getD i dRef).features = some ((refs.getD i dRef).blobFeatures)) ∧
    ((matchLoop pop ((matchLoop pop refs).1)).1 = (matchLoop pop refs).1) ∧
    (∀ r ∈ (loadReferences db s).refSamples, r.features = none) ∧
    ((loadReferences db s).refSamples.map RefSample.blobFeatures = db) := by
  have hfst : (matchLoop pop refs).1 = refs.map ensureFeatures := by rw [matchLoop_eq]
  refine ⟨?_, ?_, ?_, ?_, ?_, ?_⟩
  · rw [hfst, List.length_map]
  · intro i v hi hv
    rw [hfst, getD_map_of_lt ensureFeatures refs dRef dRef i hi,
      ensureFeatures_of_some _ v hv, hv]
  · intro i hi hv
    rw [hfst, getD_map_of_lt ensureFeatures refs dRef dRef i hi,
      ensureFeatures_of_none _ hv]
  · have h2 : (matchLoop pop (refs.map ensureFeatures)).1 =
        (refs.map ensureFeatures).map ensureFeatures := by rw [matchLoop_eq]
    have hcomp : ensureFeatures ∘ ensureFeatures = ensureFeatures := by
      funext r
      exact ensureFeatures_idem r
    rw [hfst, h2, List.map_map, hcomp]
  · intro r hr
    simp only [loadReferences] at hr
    obtain ⟨bf, _, rfl⟩ := List.mem_map.mp hr
    rfl
  · have h3 : (loadReferences db s).refSamples = db.map (fun bf => (⟨bf, none⟩ : RefSample)) :=
      rfl
    have h4 : RefSample.blobFeatures ∘ (fun bf => (⟨bf, none⟩ : RefSample)) = fun bf => bf :=
      rfl
    rw [h3, List.map_map, h4]
    exact List.map_id db

/-- Witness for `feature_cache_discipline` on a two-reference set, one
cached and one not, and a one-record reload. -/
theorem feature_cache_discipline_witness :
    ((matchLoop [1] [⟨[2], none⟩, ⟨[3], some [5]⟩]).1.getD 1 dRef).features = some [5] ∧
    ((matchLoop [1] [⟨[2], none⟩, ⟨[3], some [5]⟩]).1.getD 0 dRef).features = some [2] ∧
    (∀ r ∈ (loadReferences [[7]] ⟨0, 0, false, [], Status.ready⟩).refSamples,
      r.features = none) := by
  have H := feature_cache_discipline [1] [⟨[2], none⟩, ⟨[3], some [5]⟩] [[7]]
    ⟨0, 0, false, [], Status.ready⟩
  exact ⟨H.2.1 1 [5] (by norm_num) rfl, H.2.2.1 0 (by norm_num) rfl, H.2.2.2.2.1⟩

end PopCounter
